import Mathlib

/-
  Verification development for the fedresurs-parser pipeline.

  Shallow embedding of the record-extraction / checkpointing pipeline
  (src/3prepare_raw_contents.py) and the flattening/export stage
  (src/4make_excel_files.py).

  Python strings are modelled as Lean `String`; `str.strip()`, `str.split`,
  slicing and `" ".join` are implemented structurally over `String.data`
  (lists of unicode code points) so that every definition evaluates inside
  the kernel.  Python dicts are modelled as insertion-ordered association
  lists (`List (key × value)`) with `dictInsert` reproducing the
  replace-in-place-or-append semantics of `d[k] = v`.
-/

/-! ### Python string primitives -/

/-- Characters stripped by Python `str.strip()` (the ASCII whitespace
subset; exotic unicode whitespace does not occur in the modelled data). -/
def pyIsSpace (c : Char) : Bool :=
  (c == ' ') || (c == '\t') || (c == '\n') || (c == '\r') || (c == '\x0b') || (c == '\x0c')

/-- ASCII decimal digit test: Python's `str.isdigit` restricted to the
ASCII range actually produced by the registry pages. -/
def isDigitChar (c : Char) : Bool :=
  48 ≤ c.toNat && c.toNat ≤ 57

/-- Model of `str.strip()` on a list of code points. -/
def pyTrimChars (l : List Char) : List Char :=
  ((l.dropWhile pyIsSpace).reverse.dropWhile pyIsSpace).reverse

/-- Python `s.strip()`. -/
def pyStrip (s : String) : String := ⟨pyTrimChars s.data⟩

/-- Python `s.isdigit()`: non-empty and all decimal digits. -/
def pyIsdigit (s : String) : Bool :=
  !s.data.isEmpty && s.data.all isDigitChar

/-- Python `s.split(sep)` for a one-character separator, on code points. -/
def splitOnChar (sep : Char) : List Char → List (List Char)
  | [] => [[]]
  | c :: t =>
    if c = sep then [] :: splitOnChar sep t
    else
      match splitOnChar sep t with
      | [] => [[c]]
      | h :: r => (c :: h) :: r

/-- Python `s.split("\n")`. -/
def splitLines (s : String) : List String := (splitOnChar '\n' s.data).map String.mk

/-- Python slicing `s[:n]` (by code points). -/
def strTake (s : String) (n : Nat) : String := ⟨s.data.take n⟩

/-- Python `sep.join(parts)`. -/
def joinSep (sep : String) : List String → String
  | [] => ""
  | [x] => x
  | x :: y :: t => x ++ sep ++ joinSep sep (y :: t)

/-- Python `small.startswith(...)` shaped test: `p` is a prefix of `s`. -/
def strStartsWith (s p : String) : Bool := p.data.isPrefixOf s.data

/-- Code-point lexicographic `a ≤ b` on code-point lists: the ordering
Python's `sorted` uses on `str`. -/
def lexLe : List Char → List Char → Bool
  | [], _ => true
  | _ :: _, [] => false
  | a :: as, b :: bs =>
    if a.toNat < b.toNat then true
    else if b.toNat < a.toNat then false
    else lexLe as bs

/-- Python string comparison `a <= b` (code-point lexicographic). -/
def strLe (a b : String) : Bool := lexLe a.data b.data

/-! ### Python dict as insertion-ordered association list -/

/-- Python `d[k] = v`: replace in place if the key exists, else append. -/
def dictInsert {α : Type} : List (String × α) → String → α → List (String × α)
  | [], k, v => [(k, v)]
  | (k0, v0) :: t, k, v =>
    if k = k0 then (k, v) :: t else (k0, v0) :: dictInsert t k v

/-- Python `d.update(d2)`: insert the entries of `d2` in order. -/
def dictUpdate {α : Type} (d : List (String × α)) (d2 : List (String × α)) :
    List (String × α) :=
  d2.foldl (fun acc p => dictInsert acc p.1 p.2) d

/-! ### RecordExtractor: DOM slice model (src/3prepare_raw_contents.py) -/

/-- JSON scalar stored in a persisted Record field (`json.dump` image of a
Python `str`, `int` or `None`). -/
inductive JVal
  | null
  | int (n : Int)
  | str (s : String)
deriving DecidableEq, Repr

/-- The text views Selenium exposes on one element: the rendered `text`
attribute, the rendered texts of its descendant `span` elements, and the raw
`innerText` attribute. -/
structure Elem where
  text : String
  spans : List String
  innerText : String
deriving DecidableEq, Repr

/-- Model of `extract_text_content` (src/3prepare_raw_contents.py:460-485): rendered
text, else the space-joined non-empty span fragments whenever any `span`
child exists, else stripped `innerText`. -/
def extract_text_content (e : Elem) : String :=
  let t := pyStrip e.text
  if t ≠ "" then t
  else if e.spans ≠ [] then
    joinSep " " ((e.spans.map pyStrip).filter (fun s => s ≠ ""))
  else pyStrip e.innerText

/-- One `info-item` block: the matched `info-item-name` elements' texts and
the matched `info-item-value` elements (both possibly empty lists). -/
structure InfoItem where
  names : List String
  values : List Elem
deriving DecidableEq, Repr

/-- A cell (`td`) of a `message-table` row: its rendered text and, for the
structured second cell, the list of `td-inner-item` blocks, each given by
its direct child `div` elements. -/
structure TCell where
  text : String
  innerItems : List (List Elem)
deriving DecidableEq, Repr

/-- A `tr` of a `message-table`. -/
structure TRow where
  cells : List TCell
deriving DecidableEq, Repr

/-- One sibling block following the `Сообщение` paragraph header: its
`info-item`s, its `message-table`s (as row lists), its `message-text-header`
texts, and its nested `sfact-message` components (each a list of
`info-item`s). -/
structure Section where
  infoItems : List InfoItem
  tables : List (List TRow)
  headers : List String
  components : List (List InfoItem)
deriving DecidableEq, Repr

/-- A value of the message mapping: scalar string or nested table data. -/
inductive MVal
  | str (s : String)
  | table (d : List (String × List (String × String)))
deriving DecidableEq, Repr

/-- Model of `parse_message_table` (src/3prepare_raw_contents.py:371-426): rows after
the header row with at least two cells contribute `row_num ↦ row_data`,
where `row_data` collects label/value pairs from the second cell's inner
items plus a `Описание` entry from the third cell, and empty rows are
dropped. -/
def parse_message_table (rows : List TRow) : List (String × List (String × String)) :=
  (rows.drop 1).foldl
    (fun table_data row =>
      match row.cells with
      | c0 :: c1 :: rest =>
        let row_num := pyStrip c0.text
        let row_data := c1.innerItems.foldl
          (fun rd divs =>
            match divs with
            | d0 :: d1 :: _ =>
              let label := pyStrip d0.text
              let value := extract_text_content d1
              if label ≠ "" ∧ value ≠ "" then dictInsert rd label value else rd
            | _ => rd) []
        let row_data :=
          match rest with
          | c2 :: _ =>
            let description := pyStrip c2.text
            if description ≠ "" then dictInsert row_data "Описание" description
            else row_data
          | [] => row_data
        if row_data ≠ [] ∧ row_num ≠ "" then dictInsert table_data row_num row_data
        else table_data
      | _ => table_data) []

/-- The key/value emission rule shared by `parse_message_section` and
`parse_message_component`: use the first `info-item-name` and the first
`info-item-value` when both element lists are non-empty, and emit only when
both stripped key and extracted value are non-empty. -/
def processInfoItems (acc : List (String × MVal)) (items : List InfoItem) :
    List (String × MVal) :=
  items.foldl
    (fun acc item =>
      match item.names.head?, item.values.head? with
      | some k, some v =>
        let key := pyStrip k
        let value := extract_text_content v
        if key ≠ "" ∧ value ≠ "" then dictInsert acc key (MVal.str value) else acc
      | _, _ => acc) acc

/-- Model of `parse_message_component` (src/3prepare_raw_contents.py:429-457). -/
def parse_message_component (component : List InfoItem) : List (String × MVal) :=
  processInfoItems [] component

/-- The key a table's data is stored under (src/3prepare_raw_contents.py:
299-302): the section's first `message-text-header` text, stripped, else the
literal `Таблица`; then truncated to 36 code points. -/
def tableKeyOf (s : Section) : String :=
  strTake (match s.headers.head? with
           | some h => pyStrip h
           | none => "Таблица") 36

/-- The table-handling loop of `parse_message_section`
(src/3prepare_raw_contents.py:294-303). -/
def processTables (acc : List (String × MVal)) (s : Section) : List (String × MVal) :=
  s.tables.foldl
    (fun acc t =>
      let table_data := parse_message_table t
      if table_data ≠ [] then dictInsert acc (tableKeyOf s) (MVal.table table_data)
      else acc) acc

/-- The nested-component loop of `parse_message_section`
(src/3prepare_raw_contents.py:305-310): `message_data.update(component_data)`. -/
def processComponents (acc : List (String × MVal)) (comps : List (List InfoItem)) :
    List (String × MVal) :=
  comps.foldl (fun acc comp => dictUpdate acc (parse_message_component comp)) acc

/-- Model of `parse_message_section` (src/3prepare_raw_contents.py:261-315): fold the
sibling sections, collecting info-item pairs, then tables, then nested
components into one shared mapping. -/
def parse_message_section (sections : List Section) : List (String × MVal) :=
  sections.foldl
    (fun acc s => processComponents (processTables (processInfoItems acc s.infoItems) s) s.components)
    []

/-! ### Publisher section and Python `int(str)` -/

/-- Sum of decimal digits read most-significant first. -/
def digitsVal (l : List Char) : Nat :=
  l.foldl (fun a c => 10 * a + (c.toNat - 48)) 0

/-- Last character of a digit body must be a digit (underscores may not
trail). -/
def lastIsDigit : List Char → Bool
  | [] => false
  | [c] => isDigitChar c
  | _ :: c :: t => lastIsDigit (c :: t)

/-- No two consecutive underscores. -/
def noDoubleUnderscore : List Char → Bool
  | [] => true
  | [_] => true
  | a :: b :: t => !((a == '_') && (b == '_')) && noDoubleUnderscore (b :: t)

/-- A valid digit body for Python `int(str)`: non-empty, made of digits and
single interior underscores, starting and ending with a digit. -/
def digitBody (l : List Char) : Bool :=
  match l with
  | [] => false
  | c :: _ =>
    isDigitChar c && l.all (fun d => isDigitChar d || d == '_') &&
      lastIsDigit l && noDoubleUnderscore l

/-- The digit body's numeric value (underscore separators removed). -/
def pyIntDigits (l : List Char) : Option Nat :=
  if digitBody l then some (digitsVal (l.filter (fun c => !(c == '_')))) else none

/-- Python `int(str)` after whitespace stripping: optional sign followed by
a digit body. -/
def pyIntCore (l : List Char) : Option Int :=
  match l with
  | [] => none
  | c :: rest =>
    if c = '+' then (pyIntDigits rest).map (fun n => (n : Int))
    else if c = '-' then (pyIntDigits rest).map (fun n => -(n : Int))
    else (pyIntDigits l).map (fun n => (n : Int))

/-- Python `int(s)` for a string argument (ASCII digits; surrounding
whitespace ignored, `ValueError` modelled as `none`). -/
def pyInt (s : String) : Option Int := pyIntCore (pyTrimChars s.data)

/-- Model of `_safe_int_convert` (src/3prepare_raw_contents.py:250-258): falsy input
(`None` or the empty string) gives `None`; otherwise `int(value)`, with a
`ValueError` silently turned into `None`. -/
def safe_int_convert (value : Option String) : Option Int :=
  match value with
  | none => none
  | some s => if s = "" then none else pyInt s

/-- The stripped texts of the three publisher sub-elements, each `none` when
the element is missing (`NoSuchElementException` path of
`_extract_company_name` / `_extract_id_value`). -/
structure PubElems where
  name : Option String
  inn : Option String
  ogrn : Option String
deriving DecidableEq, Repr

/-- The publisher entry of a Record as persisted to JSON. -/
structure Publisher where
  name : String
  inn : JVal
  ogrn : JVal
deriving DecidableEq, Repr

/-- Python truthiness of an optional string: `None` and `""` are falsy. -/
def truthyStr : Option String → Bool
  | none => false
  | some s => s ≠ ""

/-- Conversion where `None` becomes JSON `null`, an integer becomes a JSON number. -/
def jvalOfInt : Option Int → JVal
  | none => JVal.null
  | some n => JVal.int n

/-- Model of `parse_publisher_section` (src/3prepare_raw_contents.py:174-218): `none`
when the section is missing or `not all([name, inn, ogrn])`; otherwise the
name plus `_safe_int_convert` of the two id texts. -/
def parse_publisher_section (section? : Option PubElems) : Option Publisher :=
  match section? with
  | none => none
  | some pe =>
    let name := pe.name.map pyStrip
    let inn := pe.inn.map pyStrip
    let ogrn := pe.ogrn.map pyStrip
    if truthyStr name ∧ truthyStr inn ∧ truthyStr ogrn then
      some { name := name.getD ""
             inn := jvalOfInt (safe_int_convert inn)
             ogrn := jvalOfInt (safe_int_convert ogrn) }
    else none

/-! ### Header, related messages, page and `parse_contents` -/

/-- The header dictionary built by `parse_header`. -/
structure HeaderData where
  main : String
  sub : String
deriving DecidableEq, Repr

/-- One `info-item` of the `Связанные сообщения` block: the text of its
`flex-shrink-0` element, of its `a` element and of its `current-message`
element, each `none` when the element is missing. -/
structure RelItem where
  numberDate : Option String
  aTitle : Option String
  currentMessage : Option String
deriving DecidableEq, Repr

/-- A fully rendered notice page, reduced to the slices the extractor
reads: header texts, publisher elements, the sibling sections after the
`Сообщение` header, and the related-messages block (`none` when the
`Связанные сообщения` paragraph is absent). -/
structure Page where
  headerText : Option String
  subheaderText : Option String
  publisher : Option PubElems
  messageSections : List Section
  related : Option (List RelItem)
deriving DecidableEq, Repr

/-- Model of `parse_header` (src/3prepare_raw_contents.py:148-171): stripped texts
with `""` defaults when the elements are missing. -/
def parse_header (p : Page) : HeaderData :=
  { main := match p.headerText with
            | some t => pyStrip t
            | none => ""
    sub := match p.subheaderText with
           | some t => pyStrip t
           | none => "" }

/-- Model of `parse_related_messages` (src/3prepare_raw_contents.py:318-368): a pair
is emitted when both the number/date text and the title (with its
`a`-element → `current-message` → `""` fallback chain) are non-empty. -/
def parse_related_messages (rel : Option (List RelItem)) : List (String × String) :=
  match rel with
  | none => []
  | some items =>
    items.foldl
      (fun acc it =>
        let number_date := match it.numberDate with
                           | some t => pyStrip t
                           | none => ""
        let title := match it.aTitle with
                     | some t => pyStrip t
                     | none =>
                       match it.currentMessage with
                       | some t => pyStrip t
                       | none => ""
        if number_date ≠ "" ∧ title ≠ "" then dictInsert acc number_date title
        else acc) []

/-- What the fetch step produced for one url: a rendered page, or one of the
three exception classes caught by `parse_contents`. -/
inductive FetchOutcome
  | ok (page : Page)
  | timeout
  | webdriverErr (msg : String)
  | unexpectedErr (msg : String)
deriving DecidableEq, Repr

/-- One notice's extracted data as persisted to JSON:
field `isSome` ↔ the corresponding dict key is present. -/
structure RecordR where
  url : String
  error : Option String
  header : Option HeaderData
  publisher : Option Publisher
  message : Option (List (String × MVal))
  related : Option (List (String × String))
deriving DecidableEq, Repr

/-- Model of `parse_contents` (src/3prepare_raw_contents.py:57-89) combined with
`parse_page_sections` (126-145): on a rendered page, a best-effort record
(header always present, the other sections present when non-empty); on each
caught exception, a record holding only the url and the error tag. -/
def parse_contents (outcome : FetchOutcome) (url : String) : RecordR :=
  match outcome with
  | FetchOutcome.ok p =>
    let message_data := parse_message_section p.messageSections
    let related_messages := parse_related_messages p.related
    { url := url
      error := none
      header := some (parse_header p)
      publisher := parse_publisher_section p.publisher
      message := if message_data = [] then none else some message_data
      related := if related_messages = [] then none else some related_messages }
  | FetchOutcome.timeout =>
    { url := url, error := some "timeout"
      header := none, publisher := none, message := none, related := none }
  | FetchOutcome.webdriverErr msg =>
    { url := url, error := some ("webdriver_error: " ++ msg)
      header := none, publisher := none, message := none, related := none }
  | FetchOutcome.unexpectedErr msg =>
    { url := url, error := some ("unexpected_error: " ++ msg)
      header := none, publisher := none, message := none, related := none }

/-! ### ExtractionPipeline / CheckpointStore (`process_links`) -/

/-- A persisted bucket: the url-keyed Record mapping of one year file, in
insertion order (the JSON object `json.dump` writes). -/
abbrev Bucket := List (String × RecordR)

/-- The observable state of one bucket's processing loop
(src/3prepare_raw_contents.py:672-694): the in-memory `year_results`, the
`processed_count` of new Records, the current contents of the output file
(`disk`), plus two event logs — the urls actually fetched and the
`processed_count` values at which `save_results` + `create_backup` fired. -/
structure RunSt where
  results : Bucket
  count : Nat
  disk : Bucket
  fetched : List String
  savedAt : List Nat
deriving DecidableEq, Repr

/-- Loop state at entry: `year_results` freshly loaded from the output file
(`load_existing_results`), so memory and disk coincide;
`processed_count = 0`. -/
def initRun (loaded : Bucket) : RunSt :=
  { results := loaded, count := 0, disk := loaded, fetched := [], savedAt := [] }

/-- One iteration of the link loop (src/3prepare_raw_contents.py:673-694):
skip when the url is already a key of `year_results`; otherwise fetch, merge
`year_results[link] = content`, bump `processed_count`, and save+backup when
`processed_count == 1 or processed_count % 10 == 0`. -/
def stepLink (fo : String → FetchOutcome) (st : RunSt) (link : String) : RunSt :=
  match List.lookup link st.results with
  | some _ => st
  | none =>
    let content := parse_contents (fo link) link
    let results := dictInsert st.results link content
    let count := st.count + 1
    let st1 : RunSt :=
      { results := results, count := count, disk := st.disk
        fetched := st.fetched ++ [link], savedAt := st.savedAt }
    if count = 1 ∨ count % 10 = 0 then
      { st1 with disk := results, savedAt := st.savedAt ++ [count] }
    else st1

/-- The link loop of one bucket, without the trailing per-bucket save: also
the state an external interrupt leaves behind, since the top-level `finally`
(src/3prepare_raw_contents.py:701-704) only quits the browser and never
touches the output file. -/
def process_links_loop (fo : String → FetchOutcome) (loaded : Bucket)
    (links : List String) : RunSt :=
  links.foldl (stepLink fo) (initRun loaded)

/-- One bucket's complete processing (src/3prepare_raw_contents.py:657-699):
the link loop followed by the unconditional final `save_results` +
`create_backup` for the year. -/
def process_links_bucket (fo : String → FetchOutcome) (loaded : Bucket)
    (links : List String) : RunSt :=
  let st := process_links_loop fo loaded links
  { st with disk := st.results, savedAt := st.savedAt ++ [st.count] }

/-- Checkpoint counts reached by a loop that merged `n` new Records: those
`c ∈ 1..n` with `c = 1` or `c % 10 = 0`, in order. -/
def chkCounts : Nat → List Nat
  | 0 => []
  | n + 1 => chkCounts n ++ (if n + 1 = 1 ∨ (n + 1) % 10 = 0 then [n + 1] else [])

/-- Records merged since the checkpoint a loop with `n` new Records last
fired (`0` when no Record has been merged yet). -/
def sinceChk (n : Nat) : Nat :=
  if n = 0 then 0 else if n < 10 then n - 1 else n % 10

/-! ### Normalizer/Flattener (src/4make_excel_files.py) -/

/-- The indexed assignment loop of `parse_lessor_info`
(src/4make_excel_files.py:111-115): walk the cleaned parts; a part equal to
a label with a successor part stores that successor (later occurrences
overwrite earlier ones). -/
def collectIds : List String → Option String × Option String → Option String × Option String
  | [], acc => acc
  | [_], acc => acc
  | a :: b :: rest, (inn, ogrn) =>
    collectIds (b :: rest)
      (if a = "ИНН" then (some b, ogrn)
       else if a = "ОГРН" then (inn, some b) else (inn, ogrn))

/-- The digit check of `parse_lessor_info` (src/4make_excel_files.py:118-121):
a truthy candidate that is not all digits is discarded. -/
def digitGate (x : Option String) : Option String :=
  match x with
  | none => none
  | some v => if v ≠ "" ∧ ¬ pyIsdigit v then none else some v

/-- The cleaned newline parts of the composite lessor block
(src/4make_excel_files.py:105). -/
def lessorParts (lessor_str : String) : List String :=
  ((splitLines lessor_str).map pyStrip).filter (fun p => p ≠ "")

/-- Model of `parse_lessor_info` (src/4make_excel_files.py:91-125) for a string
argument (the non-`str` branch returns `(None, None)` before this body
runs). -/
def parse_lessor_info (lessor_str : String) : Option String × Option String :=
  let parts := lessorParts lessor_str
  let p := collectIds parts (none, none)
  (digitGate p.1, digitGate p.2)

/-- A flattened row as handed to `pd.DataFrame`: an insertion-ordered
mapping from column name to cell value. -/
abbrev Row := List (String × JVal)

/-- The column index `pd.DataFrame(records)` builds from a list of dicts:
union of the key sets in first-seen order. -/
def pandasCols (rs : List Row) : List String :=
  rs.foldl (fun acc r => acc ++ ((r.map Prod.fst).filter (fun k => !acc.contains k))) []

/-- The fixed leading columns of `create_dataframe`
(src/4make_excel_files.py:251-261), in their defined order. -/
def special_columns : List String :=
  ["url", "Основной заголовок", "Подзаголовок",
   "ИНН Лизингодателя", "ОГРН Лизингодателя",
   "Идентификатор", "Классификатор", "Описание", "Связанные сообщения"]

/-- Insert into a list sorted by Python string comparison. -/
def insertSorted (x : String) : List String → List String
  | [] => [x]
  | y :: t => if strLe x y then x :: y :: t else y :: insertSorted x t

/-- Model of `sorted(...)` on column names (code-point lexicographic, as Python
sorts `str`). -/
def sortStrings (l : List String) : List String :=
  l.foldr insertSorted []

/-- The column order `create_dataframe` produces
(src/4make_excel_files.py:246-267): the present special columns in their
defined order, then the remaining DataFrame columns sorted. -/
def create_dataframe_cols (rs : List Row) : List String :=
  let dfCols := pandasCols rs
  (special_columns.filter (fun c => dfCols.contains c)) ++
    sortStrings (dfCols.filter (fun c => !special_columns.contains c))

/-- One output row after `df.reindex(columns=...)`: every column of the
computed order, `none` (pandas `NaN`, rendered as an empty cell) where the
record lacks the key. -/
def reindexRow (cols : List String) (r : Row) : List (String × Option JVal) :=
  cols.map (fun c => (c, List.lookup c r))

/-! ### Backup paths (`create_backup` and `process_links` setup) -/

/-- A filesystem path as its components (`os.path.join` appends a
component, `os.path.basename` takes the last one). -/
abbrev FsPath := List String

/-- The run-scoped backup directory (src/3prepare_raw_contents.py:616-620):
`BACKUPS/3_STEP_backups/<run timestamp>`, fixed once per run. -/
def runBackupDir (runTimestamp : String) : FsPath :=
  ["BACKUPS", "3_STEP_backups", runTimestamp]

/-- The per-year output file (src/3prepare_raw_contents.py:658):
`<output_dir>/raw_contents<year>.json`. -/
def yearOutputFile (outputDir : FsPath) (year : String) : FsPath :=
  outputDir ++ ["raw_contents" ++ year ++ ".json"]

/-- Model of `os.path.basename`. -/
def pathBase (p : FsPath) : String := (p.getLast?).getD ""

/-- The destination path `create_backup` copies to
(src/3prepare_raw_contents.py:581-603).  `callTimestamp` is the
`datetime.now()` string computed on line 596; the filename is
`os.path.join(BACKUP_DIR, os.path.basename(output_file))`, so the call-time
timestamp appears nowhere in it. -/
def create_backup_path (callTimestamp : String) (backupDir : FsPath)
    (outputFile : FsPath) : FsPath :=
  backupDir ++ [pathBase outputFile]

/-- The loop invariant of one bucket's link loop: the in-memory bucket
extends the on-disk bucket by exactly the Records merged since the last
checkpoint, and the save log holds exactly the checkpoint counts. -/
def loopInv (st : RunSt) : Prop :=
  (∃ tl, st.results = st.disk ++ tl ∧ tl.length = sinceChk st.count) ∧
  st.savedAt = chkCounts st.count

/-- The sorting relation used for the remaining columns. -/
def strLeProp (a b : String) : Prop := strLe a b = true

theorem lookup_dictInsert_self {α : Type} (d : List (String × α)) (k : String) (v : α) :
    List.lookup k (dictInsert d k v) = some v := by
  induction d with
  | nil => simp [dictInsert, List.lookup]
  | cons p t ih =>
    obtain ⟨k0, v0⟩ := p
    by_cases h : k = k0
    · simp [dictInsert, h, List.lookup]
    · simp only [dictInsert, if_neg h, List.lookup]
      have : (k == k0) = false := by
        exact beq_false_of_ne h
      simp [this, ih]

theorem mem_dictInsert {α : Type} {d : List (String × α)} {k : String} {v : α}
    {p : String × α} : p ∈ dictInsert d k v → p = (k, v) ∨ p ∈ d := by
  induction d with
  | nil => intro h; simpa [dictInsert] using h
  | cons q t ih =>
    obtain ⟨k0, v0⟩ := q
    intro h
    by_cases hk : k = k0
    · simp only [dictInsert, if_pos hk, List.mem_cons] at h
      rcases h with h | h
      · exact Or.inl h
      · exact Or.inr (List.mem_cons_of_mem _ h)
    · simp only [dictInsert, if_neg hk, List.mem_cons] at h
      rcases h with h | h
      · exact Or.inr (by simp [h])
      · rcases ih h with h1 | h1
        · exact Or.inl h1
        · exact Or.inr (List.mem_cons_of_mem _ h1)

/-! ### Association-list and pipeline helper lemmas -/

theorem lookup_dictInsert {α : Type} (d : List (String × α)) (k : String) (v : α)
    (u : String) :
    List.lookup u (dictInsert d k v) = if u = k then some v else List.lookup u d := by
  induction d with
  | nil =>
    by_cases h : u = k
    · simp [dictInsert, List.lookup, h]
    · simp [dictInsert, List.lookup, h, beq_false_of_ne h]
  | cons p t ih =>
    obtain ⟨k0, v0⟩ := p
    by_cases hk : k = k0
    · subst hk
      by_cases hu : u = k
      · simp [dictInsert, List.lookup, hu]
      · simp [dictInsert, List.lookup, hu, beq_false_of_ne hu]
    · by_cases hu : u = k0
      · subst hu
        simp [dictInsert, if_neg hk, List.lookup, if_neg (Ne.symm hk),
          beq_false_of_ne (Ne.symm hk)]
      · simp [dictInsert, if_neg hk, List.lookup, beq_false_of_ne hu, ih]

theorem dictInsert_of_lookup_none {α : Type} {d : List (String × α)} {k : String}
    (v : α) (h : List.lookup k d = none) : dictInsert d k v = d ++ [(k, v)] := by
  induction d with
  | nil => rfl
  | cons p t ih =>
    obtain ⟨k0, v0⟩ := p
    by_cases hk : k = k0
    · subst hk; simp [List.lookup] at h
    · have ht : List.lookup k t = none := by
        simpa [List.lookup, beq_false_of_ne hk] using h
      simp [dictInsert, if_neg hk, ih ht]

theorem stepLink_results (fo : String → FetchOutcome) (st : RunSt) (l : String) :
    (stepLink fo st l).results =
      match List.lookup l st.results with
      | some _ => st.results
      | none => dictInsert st.results l (parse_contents (fo l) l) := by
  cases hl : List.lookup l st.results <;>
    simp only [stepLink, hl] <;> split <;> rfl

theorem stepLink_preserves_lookup (fo : String → FetchOutcome) (st : RunSt)
    (l u : String) (r : RecordR) (h : List.lookup u st.results = some r) :
    List.lookup u (stepLink fo st l).results = some r := by
  rw [stepLink_results]
  cases hl : List.lookup l st.results with
  | some _ => exact h
  | none =>
    have hne : u ≠ l := fun e => by rw [e, hl] at h; exact Option.noConfusion h
    simp [lookup_dictInsert, if_neg hne, h]

theorem foldl_preserves_lookup (fo : String → FetchOutcome) (links : List String)
    (st : RunSt) (u : String) (r : RecordR) (h : List.lookup u st.results = some r) :
    List.lookup u (links.foldl (stepLink fo) st).results = some r := by
  induction links generalizing st with
  | nil => exact h
  | cons l t ih => exact ih _ (stepLink_preserves_lookup fo st l u r h)

theorem stepLink_mem_self (fo : String → FetchOutcome) (st : RunSt) (l : String) :
    (List.lookup l (stepLink fo st l).results).isSome := by
  rw [stepLink_results]
  cases hl : List.lookup l st.results with
  | some r => simp [hl]
  | none => simp [lookup_dictInsert]

theorem foldl_mem_of_mem_links (fo : String → FetchOutcome) (links : List String)
    (st : RunSt) (u : String) (h : u ∈ links) :
    (List.lookup u (links.foldl (stepLink fo) st).results).isSome := by
  induction links generalizing st with
  | nil => cases h
  | cons l t ih =>
    rcases List.mem_cons.mp h with h | h
    · subst h
      cases hv : List.lookup u (stepLink fo st u).results with
      | none =>
        have := stepLink_mem_self fo st u
        rw [hv] at this
        cases this
      | some r =>
        have := foldl_preserves_lookup fo t (stepLink fo st u) u r hv
        simp [List.foldl_cons, this]
    · simp only [List.foldl_cons]
      exact ih _ h

theorem stepLink_fetched_skip (fo : String → FetchOutcome) (st : RunSt)
    (l u : String) (r : RecordR) (h : List.lookup u st.results = some r)
    (hf : u ∉ st.fetched) : u ∉ (stepLink fo st l).fetched := by
  cases hl : List.lookup l st.results with
  | some _ => simpa [stepLink, hl] using hf
  | none =>
    have hne : u ≠ l := fun e => by rw [e, hl] at h; exact Option.noConfusion h
    have : (stepLink fo st l).fetched = st.fetched ++ [l] := by
      simp only [stepLink, hl]
      split <;> rfl
    rw [this]
    intro hmem
    rcases List.mem_append.mp hmem with hmem | hmem
    · exact hf hmem
    · exact hne (List.mem_singleton.mp hmem)

theorem foldl_fetched_skip (fo : String → FetchOutcome) (links : List String)
    (st : RunSt) (u : String) (r : RecordR) (h : List.lookup u st.results = some r)
    (hf : u ∉ st.fetched) : u ∉ (links.foldl (stepLink fo) st).fetched := by
  induction links generalizing st with
  | nil => exact hf
  | cons l t ih =>
    exact ih _ (stepLink_preserves_lookup fo st l u r h)
      (stepLink_fetched_skip fo st l u r h hf)

theorem foldl_noop (fo : String → FetchOutcome) (links : List String) (st : RunSt)
    (h : ∀ l ∈ links, (List.lookup l st.results).isSome) :
    links.foldl (stepLink fo) st = st := by
  induction links with
  | nil => rfl
  | cons l t ih =>
    have hl : (List.lookup l st.results).isSome := h l (List.mem_cons_self l t)
    cases hv : List.lookup l st.results with
    | none => rw [hv] at hl; cases hl
    | some r =>
      have hstep : stepLink fo st l = st := by simp [stepLink, hv]
      simp only [List.foldl_cons, hstep]
      exact ih (fun x hx => h x (List.mem_cons_of_mem l hx))

theorem foldl_first_insert (fo : String → FetchOutcome) (links : List String)
    (st : RunSt) (u : String) (h : u ∈ links) (hnone : List.lookup u st.results = none) :
    List.lookup u (links.foldl (stepLink fo) st).results =
      some (parse_contents (fo u) u) := by
  induction links generalizing st with
  | nil => cases h
  | cons l t ih =>
    by_cases he : u = l
    · subst he
      have hres : List.lookup u (stepLink fo st u).results =
          some (parse_contents (fo u) u) := by
        rw [stepLink_results, hnone]
        simp [lookup_dictInsert]
      simp only [List.foldl_cons]
      exact foldl_preserves_lookup fo t _ u _ hres
    · rcases List.mem_cons.mp h with hc | hc
      · exact absurd hc he
      · have hkeep : List.lookup u (stepLink fo st l).results = none := by
          rw [stepLink_results]
          cases hl : List.lookup l st.results with
          | some _ => exact hnone
          | none => simp [lookup_dictInsert, if_neg he, hnone]
        simp only [List.foldl_cons]
        exact ih _ hc hkeep

theorem sinceChk_le_nine (n : Nat) : sinceChk n ≤ 9 := by
  unfold sinceChk
  split_ifs <;> omega

theorem sinceChk_eq_zero_of_chk (n : Nat) (h : n + 1 = 1 ∨ (n + 1) % 10 = 0) :
    sinceChk (n + 1) = 0 := by
  rcases h with h | h <;> (unfold sinceChk; split_ifs <;> omega)

theorem sinceChk_succ_of_not_chk (n : Nat) (h : ¬(n + 1 = 1 ∨ (n + 1) % 10 = 0)) :
    sinceChk (n + 1) = sinceChk n + 1 := by
  rcases not_or.mp h with ⟨h1, h2⟩
  unfold sinceChk
  split_ifs <;> first | omega | assumption

theorem chkCounts_succ (n : Nat) :
    chkCounts (n + 1) =
      chkCounts n ++ (if n + 1 = 1 ∨ (n + 1) % 10 = 0 then [n + 1] else []) := rfl

theorem stepLink_inv (fo : String → FetchOutcome) (st : RunSt) (l : String)
    (h : loopInv st) : loopInv (stepLink fo st l) := by
  obtain ⟨⟨tl, hres, hlen⟩, hsaved⟩ := h
  cases hl : List.lookup l st.results with
  | some r => simpa [stepLink, hl] using ⟨⟨tl, hres, hlen⟩, hsaved⟩
  | none =>
    have hins : dictInsert st.results l (parse_contents (fo l) l) =
        st.results ++ [(l, parse_contents (fo l) l)] :=
      dictInsert_of_lookup_none _ hl
    by_cases hc : st.count + 1 = 1 ∨ (st.count + 1) % 10 = 0
    · have hstep : stepLink fo st l =
          { results := dictInsert st.results l (parse_contents (fo l) l)
            count := st.count + 1
            disk := dictInsert st.results l (parse_contents (fo l) l)
            fetched := st.fetched ++ [l]
            savedAt := st.savedAt ++ [st.count + 1] } := by
        simp only [stepLink, hl]
        rw [if_pos hc]
      rw [hstep]
      refine ⟨⟨[], by simp, ?_⟩, ?_⟩
      · simp [sinceChk_eq_zero_of_chk _ hc]
      · rw [hsaved, chkCounts_succ, if_pos hc]
    · have hstep : stepLink fo st l =
          { results := dictInsert st.results l (parse_contents (fo l) l)
            count := st.count + 1
            disk := st.disk
            fetched := st.fetched ++ [l]
            savedAt := st.savedAt } := by
        simp only [stepLink, hl]
        rw [if_neg hc]
      rw [hstep]
      refine ⟨⟨tl ++ [(l, parse_contents (fo l) l)], ?_, ?_⟩, ?_⟩
      · rw [hins, hres, List.append_assoc]
      · simp [hlen, sinceChk_succ_of_not_chk _ hc]
      · rw [hsaved, chkCounts_succ, if_neg hc, List.append_nil]

theorem foldl_inv (fo : String → FetchOutcome) (links : List String) (st : RunSt)
    (h : loopInv st) : loopInv (links.foldl (stepLink fo) st) := by
  induction links generalizing st with
  | nil => exact h
  | cons l t ih => exact ih _ (stepLink_inv fo st l h)

theorem initRun_inv (loaded : Bucket) : loopInv (initRun loaded) := by
  refine ⟨⟨[], by simp [initRun], by simp [initRun, sinceChk]⟩, ?_⟩
  simp [initRun, chkCounts]

theorem process_links_loop_inv (fo : String → FetchOutcome) (loaded : Bucket)
    (links : List String) : loopInv (process_links_loop fo loaded links) :=
  foldl_inv fo links (initRun loaded) (initRun_inv loaded)

/-! ### Message-section membership lemmas -/

theorem mem_dictUpdate {α : Type} {d d2 : List (String × α)} {p : String × α} :
    p ∈ dictUpdate d d2 → p ∈ d ∨ p ∈ d2 := by
  induction d2 generalizing d with
  | nil => intro h; exact Or.inl h
  | cons q t ih =>
    intro h
    rcases ih h with h1 | h1
    · rcases mem_dictInsert h1 with h2 | h2
      · exact Or.inr (by simp [h2])
      · exact Or.inl h2
    · exact Or.inr (List.mem_cons_of_mem _ h1)

theorem mem_processInfoItems {acc : List (String × MVal)} {items : List InfoItem}
    {p : String × MVal} (h : p ∈ processInfoItems acc items) :
    p ∈ acc ∨ ∃ k v, p = (k, MVal.str v) ∧ k ≠ "" ∧ v ≠ "" := by
  induction items generalizing acc with
  | nil => exact Or.inl h
  | cons item t ih =>
    rw [processInfoItems, List.foldl_cons] at h
    rcases ih (by exact h) with h1 | h1
    · cases hn : item.names.head? with
      | none => simp only [hn] at h1; exact Or.inl h1
      | some k =>
        cases hv : item.values.head? with
        | none => simp only [hn, hv] at h1; exact Or.inl h1
        | some v =>
          simp only [hn, hv] at h1
          by_cases hc : pyStrip k ≠ "" ∧ extract_text_content v ≠ ""
          · rw [if_pos hc] at h1
            rcases mem_dictInsert h1 with h2 | h2
            · exact Or.inr ⟨pyStrip k, extract_text_content v, h2, hc.1, hc.2⟩
            · exact Or.inl h2
          · rw [if_neg hc] at h1
            exact Or.inl h1
    · exact Or.inr h1

theorem mem_tableFold {key : String} :
    ∀ (ts : List (List TRow)) (acc : List (String × MVal)) {p : String × MVal},
      p ∈ ts.foldl
        (fun acc t =>
          let table_data := parse_message_table t
          if table_data ≠ [] then dictInsert acc key (MVal.table table_data) else acc)
        acc →
      p ∈ acc ∨ ∃ d, p = (key, MVal.table d) := by
  intro ts
  induction ts with
  | nil => intro acc p hp; exact Or.inl hp
  | cons t tail ih =>
    intro acc p hp
    rw [List.foldl_cons] at hp
    rcases ih _ hp with h1 | h1
    · by_cases hc : parse_message_table t ≠ []
      · simp only [if_pos hc] at h1
        rcases mem_dictInsert h1 with h2 | h2
        · exact Or.inr ⟨parse_message_table t, h2⟩
        · exact Or.inl h2
      · simp only [if_neg hc] at h1
        exact Or.inl h1
    · exact Or.inr h1

theorem mem_processTables {acc : List (String × MVal)} {s : Section}
    {p : String × MVal} (h : p ∈ processTables acc s) :
    p ∈ acc ∨ ∃ d, p = (tableKeyOf s, MVal.table d) := by
  rw [processTables] at h
  exact mem_tableFold s.tables acc h

theorem mem_parse_message_component {component : List InfoItem} {p : String × MVal}
    (h : p ∈ parse_message_component component) :
    ∃ k v, p = (k, MVal.str v) ∧ k ≠ "" ∧ v ≠ "" := by
  rcases mem_processInfoItems h with h1 | h1
  · cases h1
  · exact h1

theorem mem_processComponents {acc : List (String × MVal)}
    {comps : List (List InfoItem)} {p : String × MVal}
    (h : p ∈ processComponents acc comps) :
    p ∈ acc ∨ ∃ k v, p = (k, MVal.str v) ∧ k ≠ "" ∧ v ≠ "" := by
  induction comps generalizing acc with
  | nil => exact Or.inl h
  | cons comp t ih =>
    rw [processComponents, List.foldl_cons] at h
    rcases ih (by exact h) with h1 | h1
    · rcases mem_dictUpdate h1 with h2 | h2
      · exact Or.inl h2
      · exact Or.inr (mem_parse_message_component h2)
    · exact Or.inr h1

theorem mem_parse_message_section {sections : List Section} {p : String × MVal}
    (h : p ∈ parse_message_section sections) :
    (∃ k v, p = (k, MVal.str v) ∧ k ≠ "" ∧ v ≠ "") ∨
      ∃ s ∈ sections, ∃ d, p = (tableKeyOf s, MVal.table d) := by
  have main : ∀ (secs : List Section) (acc : List (String × MVal)),
      p ∈ secs.foldl
        (fun acc s =>
          processComponents (processTables (processInfoItems acc s.infoItems) s)
            s.components) acc →
      p ∈ acc ∨ (∃ k v, p = (k, MVal.str v) ∧ k ≠ "" ∧ v ≠ "") ∨
        ∃ s ∈ secs, ∃ d, p = (tableKeyOf s, MVal.table d) := by
    intro secs
    induction secs with
    | nil => intro acc hh; exact Or.inl hh
    | cons s t ih =>
      intro acc hh
      rw [List.foldl_cons] at hh
      rcases ih _ hh with h1 | h1 | h1
      · rcases mem_processComponents h1 with h2 | h2
        · rcases mem_processTables h2 with h3 | h3
          · rcases mem_processInfoItems h3 with h4 | h4
            · exact Or.inl h4
            · exact Or.inr (Or.inl h4)
          · exact Or.inr (Or.inr ⟨s, List.mem_cons_self s t, h3⟩)
        · exact Or.inr (Or.inl h2)
      · exact Or.inr (Or.inl h1)
      · obtain ⟨s1, hs1, hd⟩ := h1
        exact Or.inr (Or.inr ⟨s1, List.mem_cons_of_mem s hs1, hd⟩)
  rcases main sections [] h with h1 | h1
  · cases h1
  · exact h1

/-! ### Sorting and column-order lemmas -/

theorem lexLe_total (a b : List Char) : lexLe a b = true ∨ lexLe b a = true := by
  induction a generalizing b with
  | nil => exact Or.inl rfl
  | cons x xs ih =>
    cases b with
    | nil => exact Or.inr rfl
    | cons y ys =>
      by_cases h1 : x.toNat < y.toNat
      · exact Or.inl (by simp [lexLe, h1])
      · by_cases h2 : y.toNat < x.toNat
        · exact Or.inr (by simp [lexLe, h2])
        · rcases ih ys with h | h
          · exact Or.inl (by simp [lexLe, h1, h2, h])
          · exact Or.inr (by simp [lexLe, h1, h2, h])

theorem lexLe_trans {a b c : List Char} (hab : lexLe a b = true)
    (hbc : lexLe b c = true) : lexLe a c = true := by
  induction a generalizing b c with
  | nil => rfl
  | cons x xs ih =>
    cases b with
    | nil => simp [lexLe] at hab
    | cons y ys =>
      cases c with
      | nil => simp [lexLe] at hbc
      | cons z zs =>
        simp only [lexLe] at hab hbc ⊢
        by_cases hxy : x.toNat < y.toNat
        · by_cases hyz : y.toNat < z.toNat
          · have : x.toNat < z.toNat := Nat.lt_trans hxy hyz
            simp [this]
          · by_cases hzy : z.toNat < y.toNat
            · simp [hyz, hzy] at hbc
            · have : x.toNat < z.toNat := by omega
              simp [this]
        · by_cases hyx : y.toNat < x.toNat
          · simp [hxy, hyx] at hab
          · by_cases hyz : y.toNat < z.toNat
            · have h1 : x.toNat < z.toNat := by omega
              simp [h1]
            · by_cases hzy : z.toNat < y.toNat
              · simp [hyz, hzy] at hbc
              · have h1 : ¬ x.toNat < z.toNat := by omega
                have h2 : ¬ z.toNat < x.toNat := by omega
                simp only [hxy, hyx, if_neg, if_false] at hab
                simp only [hyz, hzy, if_neg, if_false] at hbc
                simp [h1, h2, ih hab hbc]

theorem strLe_total (a b : String) : strLe a b = true ∨ strLe b a = true :=
  lexLe_total a.data b.data

theorem strLe_trans {a b c : String} (hab : strLe a b = true)
    (hbc : strLe b c = true) : strLe a c = true :=
  lexLe_trans hab hbc

theorem mem_insertSorted {x a : String} {l : List String} :
    a ∈ insertSorted x l ↔ a = x ∨ a ∈ l := by
  induction l with
  | nil => simp [insertSorted]
  | cons y t ih =>
    by_cases h : strLe x y
    · simp [insertSorted, h, List.mem_cons]
    · simp only [insertSorted, if_neg h, List.mem_cons, ih]
      tauto

theorem sorted_insertSorted (x : String) (l : List String)
    (h : List.Sorted strLeProp l) : List.Sorted strLeProp (insertSorted x l) := by
  induction l with
  | nil => simp [insertSorted, List.Sorted]
  | cons y t ih =>
    rcases List.sorted_cons.mp h with ⟨hy, ht⟩
    by_cases hxy : strLe x y
    · rw [insertSorted, if_pos hxy]
      refine List.sorted_cons.mpr ⟨?_, h⟩
      intro b hb
      rcases List.mem_cons.mp hb with hb | hb
      · exact hb ▸ hxy
      · exact strLe_trans hxy (hy b hb)
    · rw [insertSorted, if_neg hxy]
      refine List.sorted_cons.mpr ⟨?_, ih ht⟩
      intro b hb
      rcases mem_insertSorted.mp hb with hb | hb
      · subst hb
        rcases strLe_total b y with hx | hx
        · exact absurd hx hxy
        · exact hx
      · exact hy b hb

theorem sorted_sortStrings (l : List String) :
    List.Sorted strLeProp (sortStrings l) := by
  induction l with
  | nil => simp [sortStrings, List.Sorted]
  | cons x t ih => exact sorted_insertSorted x (sortStrings t) ih

theorem mem_sortStrings {a : String} {l : List String} :
    a ∈ sortStrings l ↔ a ∈ l := by
  induction l with
  | nil => simp [sortStrings]
  | cons x t ih =>
    rw [sortStrings, List.foldr_cons]
    rw [show List.foldr insertSorted [] t = sortStrings t from rfl]
    simp [mem_insertSorted, ih]

theorem mem_pandasCols {a : String} {rs : List Row} :
    a ∈ pandasCols rs ↔ ∃ r ∈ rs, a ∈ r.map Prod.fst := by
  have main : ∀ (l : List Row) (acc : List String),
      a ∈ l.foldl
        (fun acc r => acc ++ ((r.map Prod.fst).filter (fun k => !acc.contains k)))
        acc ↔
      a ∈ acc ∨ ∃ r ∈ l, a ∈ r.map Prod.fst := by
    intro l
    induction l with
    | nil => intro acc; simp
    | cons r t ih =>
      intro acc
      rw [List.foldl_cons, ih]
      simp only [List.mem_append, List.mem_filter, List.mem_cons]
      constructor
      · rintro (⟨h | ⟨h1, _⟩⟩ | ⟨r1, hr1, ha⟩)
        · exact Or.inl h
        · exact Or.inr ⟨r, Or.inl rfl, h1⟩
        · exact Or.inr ⟨r1, Or.inr hr1, ha⟩
      · rintro (h | ⟨r1, hr1 | hr1, ha⟩)
        · exact Or.inl (Or.inl h)
        · by_cases hacc : a ∈ acc
          · exact Or.inl (Or.inl hacc)
          · refine Or.inl (Or.inr ⟨hr1 ▸ ha, ?_⟩)
            simp [hacc]
        · exact Or.inr ⟨r1, hr1, ha⟩
  rw [pandasCols, main]
  simp

theorem mem_create_dataframe_cols {a : String} {rs : List Row} :
    a ∈ create_dataframe_cols rs ↔ ∃ r ∈ rs, a ∈ r.map Prod.fst := by
  rw [create_dataframe_cols]
  simp only [List.mem_append, List.mem_filter, mem_sortStrings]
  constructor
  · rintro (⟨_, h⟩ | ⟨h, _⟩)
    · exact mem_pandasCols.mp (by simpa using h)
    · exact mem_pandasCols.mp h
  · intro h
    have hdf : a ∈ pandasCols rs := mem_pandasCols.mpr h
    by_cases hs : a ∈ special_columns
    · exact Or.inl ⟨hs, by simpa using hdf⟩
    · refine Or.inr ⟨hdf, ?_⟩
      simp [hs]

/-! ### Character and digit-string lemmas -/

theorem isDigitChar_toNat {c : Char} (h : isDigitChar c = true) :
    48 ≤ c.toNat ∧ c.toNat ≤ 57 := by
  simpa [isDigitChar] using h

theorem pyIsSpace_toNat {c : Char} (h : pyIsSpace c = true) :
    c.toNat = 32 ∨ c.toNat = 9 ∨ c.toNat = 10 ∨ c.toNat = 13 ∨
      c.toNat = 11 ∨ c.toNat = 12 := by
  simp only [pyIsSpace, Bool.or_eq_true, beq_iff_eq] at h
  rcases h with ((((e | e) | e) | e) | e) | e <;> rw [e] <;> simp

theorem not_space_of_digit {c : Char} (h : isDigitChar c = true) :
    pyIsSpace c = false := by
  obtain ⟨h1, h2⟩ := isDigitChar_toNat h
  cases hs : pyIsSpace c with
  | false => rfl
  | true =>
    rcases pyIsSpace_toNat hs with e | e | e | e | e | e <;> omega

theorem ne_plus_of_digit {c : Char} (h : isDigitChar c = true) : c ≠ '+' := by
  intro e
  rw [e] at h
  exact absurd h (by decide)

theorem ne_minus_of_digit {c : Char} (h : isDigitChar c = true) : c ≠ '-' := by
  intro e
  rw [e] at h
  exact absurd h (by decide)

theorem beq_underscore_of_digit {c : Char} (h : isDigitChar c = true) :
    (c == '_') = false := by
  refine beq_false_of_ne ?_
  intro e
  rw [e] at h
  exact absurd h (by decide)

theorem dropWhile_no_space {l : List Char} (h : ∀ c ∈ l, pyIsSpace c = false) :
    l.dropWhile pyIsSpace = l := by
  cases l with
  | nil => rfl
  | cons c t =>
    rw [List.dropWhile_cons, if_neg]
    rw [h c (List.mem_cons_self c t)]
    simp

theorem pyTrimChars_eq_self {l : List Char} (h : ∀ c ∈ l, pyIsSpace c = false) :
    pyTrimChars l = l := by
  rw [pyTrimChars, dropWhile_no_space h,
    dropWhile_no_space (fun c hc => h c (List.mem_reverse.mp hc)), List.reverse_reverse]

theorem lastIsDigit_of_all {l : List Char} (hne : l ≠ [])
    (h : ∀ c ∈ l, isDigitChar c = true) : lastIsDigit l = true := by
  induction l with
  | nil => exact absurd rfl hne
  | cons c t ih =>
    cases t with
    | nil => exact h c (List.mem_cons_self c [])
    | cons d r =>
      rw [lastIsDigit]
      exact ih (by simp) (fun x hx => h x (List.mem_cons_of_mem c hx))

theorem noDoubleUnderscore_of_all {l : List Char}
    (h : ∀ c ∈ l, isDigitChar c = true) : noDoubleUnderscore l = true := by
  induction l with
  | nil => rfl
  | cons c t ih =>
    cases t with
    | nil => rfl
    | cons d r =>
      rw [noDoubleUnderscore]
      rw [beq_underscore_of_digit (h c (List.mem_cons_self c _))]
      simp only [Bool.false_and, Bool.not_false, Bool.true_and]
      exact ih (fun x hx => h x (List.mem_cons_of_mem c hx))

theorem digitBody_of_all_digit {l : List Char} (hne : l ≠ [])
    (h : ∀ c ∈ l, isDigitChar c = true) : digitBody l = true := by
  cases l with
  | nil => exact absurd rfl hne
  | cons c t =>
    rw [digitBody]
    rw [h c (List.mem_cons_self c t)]
    have hall : (c :: t).all (fun d => isDigitChar d || d == '_') = true := by
      rw [List.all_eq_true]
      intro x hx
      rw [h x hx]
      rfl
    rw [hall, lastIsDigit_of_all (by simp) h, noDoubleUnderscore_of_all h]
    rfl

theorem filter_no_underscore {l : List Char} (h : ∀ c ∈ l, isDigitChar c = true) :
    l.filter (fun c => !(c == '_')) = l := by
  rw [List.filter_eq_self]
  intro a ha
  rw [beq_underscore_of_digit (h a ha)]
  rfl

theorem pyInt_of_digits {s : String} (hne : s.data ≠ [])
    (h : ∀ c ∈ s.data, isDigitChar c = true) :
    pyInt s = some ((digitsVal s.data : Nat) : Int) := by
  rw [pyInt, pyTrimChars_eq_self (fun c hc => not_space_of_digit (h c hc))]
  cases hd : s.data with
  | nil => exact absurd hd hne
  | cons c t =>
    rw [pyIntCore]
    have hc : isDigitChar c = true := h c (by rw [hd]; exact List.mem_cons_self c t)
    rw [if_neg (ne_plus_of_digit hc), if_neg (ne_minus_of_digit hc)]
    rw [pyIntDigits, if_pos]
    · rw [filter_no_underscore (fun x hx => h x (by rw [hd]; exact hx))]
      rfl
    · exact digitBody_of_all_digit (by simp) (fun x hx => h x (by rw [hd]; exact hx))

theorem safe_int_convert_digits {s : String} (h : pyIsdigit s = true) :
    safe_int_convert (some s) = some ((digitsVal s.data : Nat) : Int) := by
  simp only [pyIsdigit, Bool.and_eq_true, Bool.not_eq_true', List.isEmpty_eq_false,
    List.all_eq_true] at h
  obtain ⟨hne, hall⟩ := h
  have hs : s ≠ "" := by
    intro e
    rw [e] at hne
    exact hne rfl
  rw [safe_int_convert, if_neg hs]
  exact pyInt_of_digits hne hall

/-! ### `parse_lessor_info` lemmas -/

theorem collectIds_fst_of_no_label :
    ∀ (parts : List String) (acc : Option String × Option String),
      "ИНН" ∉ parts → (collectIds parts acc).1 = acc.1 := by
  intro parts
  induction parts with
  | nil => intro acc _; rfl
  | cons a t ih =>
    intro acc hno
    cases t with
    | nil => rfl
    | cons b rest =>
      have ha : a ≠ "ИНН" := fun e => hno (e ▸ List.mem_cons_self a _)
      have ht : "ИНН" ∉ b :: rest := fun hm => hno (List.mem_cons_of_mem a hm)
      obtain ⟨inn, ogrn⟩ := acc
      rw [collectIds, if_neg ha]
      by_cases hb : a = "ОГРН"
      · rw [if_pos hb]
        exact ih _ ht
      · rw [if_neg hb]
        exact ih _ ht

theorem collectIds_snd_of_no_label :
    ∀ (parts : List String) (acc : Option String × Option String),
      "ОГРН" ∉ parts → (collectIds parts acc).2 = acc.2 := by
  intro parts
  induction parts with
  | nil => intro acc _; rfl
  | cons a t ih =>
    intro acc hno
    cases t with
    | nil => rfl
    | cons b rest =>
      have ha : a ≠ "ОГРН" := fun e => hno (e ▸ List.mem_cons_self a _)
      have ht : "ОГРН" ∉ b :: rest := fun hm => hno (List.mem_cons_of_mem a hm)
      obtain ⟨inn, ogrn⟩ := acc
      rw [collectIds]
      by_cases hb : a = "ИНН"
      · rw [if_pos hb]
        exact ih _ ht
      · rw [if_neg hb, if_neg ha]
        exact ih _ ht

theorem collectIds_fst_some :
    ∀ (parts : List String) (acc : Option String × Option String) (v : String),
      (collectIds parts acc).1 = some v →
      acc.1 = some v ∨ ∃ pre post, parts = pre ++ "ИНН" :: v :: post := by
  intro parts
  induction parts with
  | nil => intro acc v h; exact Or.inl h
  | cons a t ih =>
    intro acc v h
    cases t with
    | nil => exact Or.inl h
    | cons b rest =>
      obtain ⟨inn, ogrn⟩ := acc
      rw [collectIds] at h
      by_cases ha : a = "ИНН"
      · rw [if_pos ha] at h
        rcases ih _ _ h with h1 | ⟨pre, post, hp⟩
        · simp only at h1
          refine Or.inr ⟨[], rest, ?_⟩
          rw [ha, Option.some_inj.mp h1]
          rfl
        · exact Or.inr ⟨a :: pre, post, by rw [hp]; rfl⟩
      · rw [if_neg ha] at h
        by_cases hb : a = "ОГРН"
        · rw [if_pos hb] at h
          rcases ih _ _ h with h1 | ⟨pre, post, hp⟩
          · exact Or.inl h1
          · exact Or.inr ⟨a :: pre, post, by rw [hp]; rfl⟩
        · rw [if_neg hb] at h
          rcases ih _ _ h with h1 | ⟨pre, post, hp⟩
          · exact Or.inl h1
          · exact Or.inr ⟨a :: pre, post, by rw [hp]; rfl⟩

theorem collectIds_snd_some :
    ∀ (parts : List String) (acc : Option String × Option String) (v : String),
      (collectIds parts acc).2 = some v →
      acc.2 = some v ∨ ∃ pre post, parts = pre ++ "ОГРН" :: v :: post := by
  intro parts
  induction parts with
  | nil => intro acc v h; exact Or.inl h
  | cons a t ih =>
    intro acc v h
    cases t with
    | nil => exact Or.inl h
    | cons b rest =>
      obtain ⟨inn, ogrn⟩ := acc
      rw [collectIds] at h
      by_cases ha : a = "ИНН"
      · rw [if_pos ha] at h
        rcases ih _ _ h with h1 | ⟨pre, post, hp⟩
        · exact Or.inl h1
        · exact Or.inr ⟨a :: pre, post, by rw [hp]; rfl⟩
      · rw [if_neg ha] at h
        by_cases hb : a = "ОГРН"
        · rw [if_pos hb] at h
          rcases ih _ _ h with h1 | ⟨pre, post, hp⟩
          · simp only at h1
            refine Or.inr ⟨[], rest, ?_⟩
            rw [hb, Option.some_inj.mp h1]
            rfl
          · exact Or.inr ⟨a :: pre, post, by rw [hp]; rfl⟩
        · rw [if_neg hb] at h
          rcases ih _ _ h with h1 | ⟨pre, post, hp⟩
          · exact Or.inl h1
          · exact Or.inr ⟨a :: pre, post, by rw [hp]; rfl⟩

theorem digitGate_some {x : Option String} {v : String}
    (h : digitGate x = some v) : x = some v ∧ (v = "" ∨ pyIsdigit v = true) := by
  cases x with
  | none => cases h
  | some w =>
    rw [digitGate] at h
    by_cases hc : w ≠ "" ∧ ¬ pyIsdigit w
    · rw [if_pos hc] at h
      cases h
    · rw [if_neg hc] at h
      refine ⟨h, ?_⟩
      have hv : w = v := Option.some_inj.mp h
      by_cases he : w = ""
      · exact Or.inl (hv ▸ he)
      · rcases not_and_or.mp hc with hc1 | hc2
        · exact absurd he (by simpa using hc1)
        · refine Or.inr (hv ▸ ?_)
          simpa using hc2

theorem mem_lessorParts_ne_empty {s : String} {v : String}
    (h : v ∈ lessorParts s) : v ≠ "" := by
  rw [lessorParts] at h
  have := List.mem_filter.mp h
  simpa using this.2

/-! ### Claim theorems -/

/-- C10: every `create_backup` call of one run writes the same destination
path for a given bucket — the run-scoped backup directory joined with the
output file's base name; the timestamp computed inside `create_backup` never
reaches the filename, so each periodic backup overwrites the previous one
and at most one snapshot per bucket survives a run. -/
theorem backup_path_constant :
    ∀ (ts1 ts2 runTs year : String) (outputDir : FsPath),
      create_backup_path ts1 (runBackupDir runTs) (yearOutputFile outputDir year) =
        runBackupDir runTs ++ ["raw_contents" ++ year ++ ".json"] ∧
      create_backup_path ts1 (runBackupDir runTs) (yearOutputFile outputDir year) =
        create_backup_path ts2 (runBackupDir runTs) (yearOutputFile outputDir year) := by
  intro ts1 ts2 runTs year outputDir
  constructor
  · rw [create_backup_path, yearOutputFile, pathBase]
    rw [List.getLast?_concat]
    rfl
  · rfl

theorem isPrefixOf_append_self (l t : List Char) : l.isPrefixOf (l ++ t) = true := by
  induction l with
  | nil => simp [List.isPrefixOf]
  | cons c cs ih => simp [List.isPrefixOf, ih]

theorem strStartsWith_append (p m : String) : strStartsWith (p ++ m) p = true := by
  rw [strStartsWith]
  have hd : (p ++ m).data = p.data ++ m.data := rfl
  rw [hd]
  exact isPrefixOf_append_self _ _

/-- C3 counterexample: a `WebDriverException` produces the error kind
`webdriver_error: <detail>`, which is none of `timeout`, `navigation_error`,
`unexpected_error` — so the claimed error-kind set is wrong. -/
theorem error_kind_counterexample :
    (parse_contents (FetchOutcome.webdriverErr "net::ERR_TIMED_OUT") "u").error =
      some "webdriver_error: net::ERR_TIMED_OUT" ∧
    "webdriver_error: net::ERR_TIMED_OUT" ∉
      (["timeout", "navigation_error", "unexpected_error"] : List String) := by
  exact ⟨rfl, by decide⟩

/-- C3 (amended): extraction yields an error-tagged Record exactly when the
fetch failed; the tag is `timeout` or starts with `webdriver_error: ` or
`unexpected_error: `, and such Records carry the url and nothing else — no
header, publisher, message or related entries (error and message are
mutually exclusive). -/
theorem parse_contents_error_shape :
    (∀ (p : Page) (u : String), (parse_contents (FetchOutcome.ok p) u).error = none) ∧
    (∀ (o : FetchOutcome) (u e : String), (parse_contents o u).error = some e →
      (e = "timeout" ∨ strStartsWith e "webdriver_error: " = true ∨
        strStartsWith e "unexpected_error: " = true) ∧
      (parse_contents o u).url = u ∧
      (parse_contents o u).header = none ∧
      (parse_contents o u).publisher = none ∧
      (parse_contents o u).message = none ∧
      (parse_contents o u).related = none) := by
  constructor
  · intro p u
    rfl
  · intro o u e h
    cases o with
    | ok p => cases h
    | timeout =>
      have he : e = "timeout" := (Option.some_inj.mp h).symm
      exact ⟨Or.inl he, rfl, rfl, rfl, rfl, rfl⟩
    | webdriverErr m =>
      have he : e = "webdriver_error: " ++ m := (Option.some_inj.mp h).symm
      refine ⟨Or.inr (Or.inl ?_), rfl, rfl, rfl, rfl, rfl⟩
      rw [he]
      exact strStartsWith_append _ m
    | unexpectedErr m =>
      have he : e = "unexpected_error: " ++ m := (Option.some_inj.mp h).symm
      refine ⟨Or.inr (Or.inr ?_), rfl, rfl, rfl, rfl, rfl⟩
      rw [he]
      exact strStartsWith_append _ m

/-- C3 witness: the `timeout` outcome instantiates the error-shape theorem. -/
theorem parse_contents_error_shape_witness :
    ("timeout" = "timeout" ∨ strStartsWith "timeout" "webdriver_error: " = true ∨
      strStartsWith "timeout" "unexpected_error: " = true) ∧
    (parse_contents FetchOutcome.timeout "u").url = "u" ∧
    (parse_contents FetchOutcome.timeout "u").header = none ∧
    (parse_contents FetchOutcome.timeout "u").publisher = none ∧
    (parse_contents FetchOutcome.timeout "u").message = none ∧
    (parse_contents FetchOutcome.timeout "u").related = none :=
  parse_contents_error_shape.2 FetchOutcome.timeout "u" "timeout" rfl

/-- C6 counterexample: non-numeric ИНН text `12a3` is not kept verbatim in
the Record — the stored value is JSON `null`, not the string `12a3`. -/
theorem verbatim_counterexample :
    (parse_publisher_section
        (some { name := some "ООО Ромашка", inn := some "12a3",
                ogrn := some "0987654321" })).map Publisher.inn =
      some JVal.null ∧
    JVal.null ≠ JVal.str "12a3" := by
  exact ⟨rfl, by decide⟩

/-- C6 (amended): pure digit text for an identity field converts to its
integer value; text `int()` rejects makes `_safe_int_convert` return `None`
silently (stored as JSON `null`, not verbatim), and in both cases no
exception escapes. -/
theorem identity_conversion :
    (∀ s : String, pyIsdigit s = true →
      safe_int_convert (some s) = some ((digitsVal s.data : Nat) : Int)) ∧
    (∀ s : String, s ≠ "" → pyInt s = none → safe_int_convert (some s) = none) ∧
    (parse_publisher_section
        (some { name := some "ООО Ромашка", inn := some "12a3",
                ogrn := some "0987654321" }) =
      some { name := "ООО Ромашка", inn := JVal.null,
             ogrn := JVal.int 987654321 }) := by
  refine ⟨?_, ?_, by decide⟩
  · intro s h
    exact safe_int_convert_digits h
  · intro s hne h
    rw [safe_int_convert, if_neg hne, h]

/-- C6 witness: the digit string `1234567890` instantiates the conversion
theorem. -/
theorem identity_conversion_witness :
    pyIsdigit "1234567890" = true ∧
    safe_int_convert (some "1234567890") =
      some ((digitsVal ("1234567890" : String).data : Nat) : Int) :=
  ⟨by decide, identity_conversion.1 "1234567890" (by decide)⟩

/-- C5: `parse_lessor_info` returns the token immediately following each of
the labels `ИНН` and `ОГРН` in the cleaned newline parts, `None` when a
label is absent or the following token fails the digit check, and it is a
total function; the two scenario inputs evaluate as the spec states. -/
theorem parse_lessor_info_spec :
    parse_lessor_info "ООО Ромашка\nИНН\n1234567890\nОГРН\n0987654321" =
      (some "1234567890", some "0987654321") ∧
    (parse_lessor_info "ИНН\nabc123").1 = none ∧
    (∀ s : String, "ИНН" ∉ lessorParts s → (parse_lessor_info s).1 = none) ∧
    (∀ s : String, "ОГРН" ∉ lessorParts s → (parse_lessor_info s).2 = none) ∧
    (∀ (s v : String), (parse_lessor_info s).1 = some v →
      pyIsdigit v = true ∧ ∃ pre post, lessorParts s = pre ++ "ИНН" :: v :: post) ∧
    (∀ (s v : String), (parse_lessor_info s).2 = some v →
      pyIsdigit v = true ∧ ∃ pre post, lessorParts s = pre ++ "ОГРН" :: v :: post) := by
  refine ⟨by decide, by decide, ?_, ?_, ?_, ?_⟩
  · intro s h
    rw [parse_lessor_info]
    simp only
    rw [collectIds_fst_of_no_label _ _ h]
    rfl
  · intro s h
    rw [parse_lessor_info]
    simp only
    rw [collectIds_snd_of_no_label _ _ h]
    rfl
  · intro s v h
    rw [parse_lessor_info] at h
    simp only at h
    obtain ⟨hc, hd⟩ := digitGate_some h
    rcases collectIds_fst_some (lessorParts s) (none, none) v hc with h1 | ⟨pre, post, hp⟩
    · cases h1
    · have hv : v ∈ lessorParts s := by
        rw [hp]
        exact List.mem_append.mpr (Or.inr (List.mem_cons_of_mem _ (List.mem_cons_self _ _)))
      have hne : v ≠ "" := mem_lessorParts_ne_empty hv
      rcases hd with hd | hd
      · exact absurd hd hne
      · exact ⟨hd, pre, post, hp⟩
  · intro s v h
    rw [parse_lessor_info] at h
    simp only at h
    obtain ⟨hc, hd⟩ := digitGate_some h
    rcases collectIds_snd_some (lessorParts s) (none, none) v hc with h1 | ⟨pre, post, hp⟩
    · cases h1
    · have hv : v ∈ lessorParts s := by
        rw [hp]
        exact List.mem_append.mpr (Or.inr (List.mem_cons_of_mem _ (List.mem_cons_self _ _)))
      have hne : v ≠ "" := mem_lessorParts_ne_empty hv
      rcases hd with hd | hd
      · exact absurd hd hne
      · exact ⟨hd, pre, post, hp⟩

/-- C5 witness: the label-absence and label-following cases of
`parse_lessor_info_spec` at concrete inputs. -/
theorem parse_lessor_info_spec_witness :
    (parse_lessor_info "ООО Ромашка").1 = none ∧
    (parse_lessor_info "ООО Ромашка").2 = none ∧
    (pyIsdigit "123" = true ∧
      ∃ pre post, lessorParts "ИНН\n123" = pre ++ "ИНН" :: "123" :: post) ∧
    (pyIsdigit "456" = true ∧
      ∃ pre post, lessorParts "ОГРН\n456" = pre ++ "ОГРН" :: "456" :: post) :=
  ⟨parse_lessor_info_spec.2.2.1 "ООО Ромашка" (by decide),
   parse_lessor_info_spec.2.2.2.1 "ООО Ромашка" (by decide),
   parse_lessor_info_spec.2.2.2.2.1 "ИНН\n123" "123" (by decide),
   parse_lessor_info_spec.2.2.2.2.2 "ОГРН\n456" "456" (by decide)⟩

/-- C8 counterexample: an element whose rendered text is empty and whose
only span is empty yields `""` even though its raw inner text is the
non-empty `X` — so the third strategy is not tried and "first non-empty
result wins" fails. -/
theorem text_fallback_counterexample :
    extract_text_content { text := "", spans := [""], innerText := "X" } = "" ∧
    pyStrip ("X" : String) ≠ "" := by
  exact ⟨rfl, by decide⟩

/-- C8 (amended): a key/value pair enters the message mapping only when both
key and value are non-empty; value extraction returns the stripped rendered
text when non-empty, otherwise — whenever any span child exists — the
space-joined non-empty span fragments even if that join is empty, and falls
back to stripped inner text only when there is no span child at all. -/
theorem message_pair_emission :
    (∀ e : Elem, pyStrip e.text ≠ "" → extract_text_content e = pyStrip e.text) ∧
    (∀ e : Elem, pyStrip e.text = "" → e.spans ≠ [] →
      extract_text_content e =
        joinSep " " ((e.spans.map pyStrip).filter (fun s => s ≠ ""))) ∧
    (∀ e : Elem, pyStrip e.text = "" → e.spans = [] →
      extract_text_content e = pyStrip e.innerText) ∧
    (∀ (sections : List Section) (k v : String),
      (k, MVal.str v) ∈ parse_message_section sections → k ≠ "" ∧ v ≠ "") := by
  refine ⟨?_, ?_, ?_, ?_⟩
  · intro e h
    rw [extract_text_content, if_pos h]
  · intro e h hs
    rw [extract_text_content, if_neg (by simpa using h), if_pos hs]
  · intro e h hs
    rw [extract_text_content, if_neg (by simpa using h), if_neg (by simpa using hs)]
  · intro sections k v h
    rcases mem_parse_message_section h with ⟨k1, v1, he, hk, hv⟩ | ⟨s, _, d, he⟩
    · obtain ⟨e1, e2⟩ := Prod.mk.injEq .. ▸ he
      · exact ⟨e1 ▸ hk, (MVal.str.injEq .. ▸ e2) ▸ hv⟩
    · exact absurd (congrArg Prod.snd he) (by simp)

/-- C8 witness: a concrete section emits the pair `("k", "v")` and both
components are non-empty; a concrete element with rendered text uses it. -/
theorem message_pair_emission_witness :
    (extract_text_content { text := " a ", spans := [], innerText := "" } =
      pyStrip (" a " : String)) ∧
    ("k" ≠ "" ∧ "v" ≠ "") :=
  ⟨message_pair_emission.1 { text := " a ", spans := [], innerText := "" } (by decide),
   message_pair_emission.2.2.2
     [{ infoItems := [{ names := ["k"],
                        values := [{ text := "v", spans := [], innerText := "" }] }],
        tables := [], headers := [], components := [] }] "k" "v" (by decide)⟩

/-- C9: a table's message key is the section's first `message-text-header`
text, stripped and truncated to 36 code points, or the literal `Таблица`
when no header element exists; hence tables from two sections whose headers
agree on their first 36 characters collide and the later write wins. -/
theorem table_key_truncation :
    (∀ (sections : List Section) (k : String)
        (d : List (String × List (String × String))),
      (k, MVal.table d) ∈ parse_message_section sections →
      ∃ s ∈ sections, k = tableKeyOf s) ∧
    (∀ s : Section, s.headers = [] → tableKeyOf s = "Таблица") ∧
    (∀ (h : String) (rest : List String) (items : List InfoItem)
        (tables : List (List TRow)) (comps : List (List InfoItem)),
      tableKeyOf ⟨items, tables, h :: rest, comps⟩ = strTake (pyStrip h) 36) ∧
    (∀ (t1 t2 : List TRow) (h1 h2 : String),
      strTake (pyStrip h1) 36 = strTake (pyStrip h2) 36 →
      parse_message_table t1 ≠ [] → parse_message_table t2 ≠ [] →
      parse_message_section
          [⟨[], [t1], [h1], []⟩, ⟨[], [t2], [h2], []⟩] =
        [(strTake (pyStrip h2) 36, MVal.table (parse_message_table t2))]) := by
  refine ⟨?_, ?_, ?_, ?_⟩
  · intro sections k d h
    rcases mem_parse_message_section h with ⟨k1, v1, he, _, _⟩ | ⟨s, hs, d1, he⟩
    · exact absurd (congrArg Prod.snd he) (by simp)
    · exact ⟨s, hs, congrArg Prod.fst he⟩
  · intro s h
    rw [tableKeyOf, h]
    rfl
  · intro h rest items tables comps
    rfl
  · intro t1 t2 h1 h2 hk hd1 hd2
    have hunfold : parse_message_section
        [⟨[], [t1], [h1], []⟩, ⟨[], [t2], [h2], []⟩] =
        if parse_message_table t2 ≠ [] then
          dictInsert
            (if parse_message_table t1 ≠ [] then
              [(strTake (pyStrip h1) 36, MVal.table (parse_message_table t1))]
            else [])
            (strTake (pyStrip h2) 36) (MVal.table (parse_message_table t2))
        else
          (if parse_message_table t1 ≠ [] then
            [(strTake (pyStrip h1) 36, MVal.table (parse_message_table t1))]
          else []) := rfl
    rw [hunfold, if_pos hd1, if_pos hd2, hk]
    rw [dictInsert, if_pos rfl]

/-- C9 witness: two sections with the identical header `Шапка` and
non-empty tables collide on the same truncated key and the second table's
data wins; a section without header elements uses `Таблица`. -/
theorem table_key_truncation_witness :
    (tableKeyOf ⟨[], [], [], []⟩ = "Таблица") ∧
    (parse_message_section
        [⟨[], [[⟨[]⟩, ⟨[⟨"1", []⟩, ⟨"", []⟩, ⟨"d", []⟩]⟩]], ["Шапка"], []⟩,
         ⟨[], [[⟨[]⟩, ⟨[⟨"1", []⟩, ⟨"", []⟩, ⟨"e", []⟩]⟩]], ["Шапка"], []⟩] =
      [(strTake (pyStrip "Шапка") 36,
        MVal.table (parse_message_table
          [⟨[]⟩, ⟨[⟨"1", []⟩, ⟨"", []⟩, ⟨"e", []⟩]⟩]))]) :=
  ⟨table_key_truncation.2.1 ⟨[], [], [], []⟩ rfl,
   table_key_truncation.2.2.2
     [⟨[]⟩, ⟨[⟨"1", []⟩, ⟨"", []⟩, ⟨"d", []⟩]⟩]
     [⟨[]⟩, ⟨[⟨"1", []⟩, ⟨"", []⟩, ⟨"e", []⟩]⟩]
     "Шапка" "Шапка" rfl (by decide) (by decide)⟩

/-- C2 counterexample: with three fresh urls and an interrupt after the
third merge (the loop state before any further save), the only checkpoint
fired at the first new Record, the top-level `finally` adds no save, and the
persisted bucket differs from the in-memory bucket — the claimed
finally-path save+backup does not exist. -/
theorem finally_no_save_counterexample :
    (process_links_loop (fun _ => FetchOutcome.timeout) [] ["a", "b", "c"]).fetched =
      ["a", "b", "c"] ∧
    (process_links_loop (fun _ => FetchOutcome.timeout) [] ["a", "b", "c"]).savedAt =
      [1] ∧
    (process_links_loop (fun _ => FetchOutcome.timeout) [] ["a", "b", "c"]).disk ≠
      (process_links_loop (fun _ => FetchOutcome.timeout) [] ["a", "b", "c"]).results := by
  exact ⟨by decide, by decide, by decide⟩

/-- C2 (amended): save+backup fires after the first new Record and at every
tenth thereafter, plus unconditionally once at the end of each bucket; the
top-level `finally` only releases the browser, so a run interrupted at any
prefix of the link list has persisted exactly the bucket as of its last
checkpoint, at most 9 merged Records behind memory. -/
theorem checkpoint_cadence :
    ∀ (fo : String → FetchOutcome) (loaded : Bucket) (links : List String) (j : Nat),
      (∃ tl, (process_links_loop fo loaded (links.take j)).results =
          (process_links_loop fo loaded (links.take j)).disk ++ tl ∧
        tl.length ≤ 9) ∧
      (process_links_loop fo loaded (links.take j)).savedAt =
        chkCounts (process_links_loop fo loaded (links.take j)).count ∧
      (process_links_bucket fo loaded links).disk =
        (process_links_bucket fo loaded links).results := by
  intro fo loaded links j
  obtain ⟨⟨tl, hres, hlen⟩, hsaved⟩ := process_links_loop_inv fo loaded (links.take j)
  refine ⟨⟨tl, hres, ?_⟩, hsaved, rfl⟩
  rw [hlen]
  exact sinceChk_le_nine _

/-- C1: with `force_refresh=false`, urls already present in the loaded
Bucket are skipped (never fetched) and their stored Records survive
unchanged; a second run over the same links fetches nothing and leaves both
the in-memory and the persisted Bucket exactly as the first run wrote them. -/
theorem process_links_idempotent :
    ∀ (fo : String → FetchOutcome) (loaded : Bucket) (links : List String),
      (∀ u r, List.lookup u loaded = some r →
        List.lookup u (process_links_bucket fo loaded links).results = some r) ∧
      (∀ u, (List.lookup u loaded).isSome →
        u ∉ (process_links_bucket fo loaded links).fetched) ∧
      (process_links_bucket fo (process_links_bucket fo loaded links).results
          links).results =
        (process_links_bucket fo loaded links).results ∧
      (process_links_bucket fo (process_links_bucket fo loaded links).results
          links).disk =
        (process_links_bucket fo loaded links).disk ∧
      (process_links_bucket fo (process_links_bucket fo loaded links).results
          links).fetched = [] := by
  intro fo loaded links
  have hres : (process_links_bucket fo loaded links).results =
      (process_links_loop fo loaded links).results := rfl
  have hall : ∀ l ∈ links,
      (List.lookup l (process_links_bucket fo loaded links).results).isSome := by
    intro l hl
    rw [hres]
    exact foldl_mem_of_mem_links fo links (initRun _) l hl
  have hnoop : process_links_loop fo (process_links_bucket fo loaded links).results
      links = initRun (process_links_bucket fo loaded links).results := by
    rw [process_links_loop]
    exact foldl_noop fo links _ (fun l hl => hall l hl)
  refine ⟨?_, ?_, ?_, ?_, ?_⟩
  · intro u r h
    rw [hres]
    exact foldl_preserves_lookup fo links (initRun loaded) u r h
  · intro u h
    obtain ⟨r, hr⟩ := Option.isSome_iff_exists.mp h
    have : u ∉ (process_links_loop fo loaded links).fetched :=
      foldl_fetched_skip fo links (initRun loaded) u r hr (by simp [initRun])
    exact this
  · show (process_links_loop fo (process_links_bucket fo loaded links).results
        links).results = _
    rw [hnoop]
    rfl
  · show (process_links_loop fo (process_links_bucket fo loaded links).results
        links).results = _
    rw [hnoop]
    rfl
  · show (process_links_loop fo (process_links_bucket fo loaded links).results
        links).fetched = []
    rw [hnoop]
    rfl

/-- C1 witness: a loaded Bucket entry for `u` survives a run over
`["u", "b"]` and `u` is never fetched. -/
theorem process_links_idempotent_witness :
    List.lookup "u"
        (process_links_bucket (fun _ => FetchOutcome.timeout)
          [("u", parse_contents FetchOutcome.timeout "u")] ["u", "b"]).results =
      some (parse_contents FetchOutcome.timeout "u") ∧
    "u" ∉ (process_links_bucket (fun _ => FetchOutcome.timeout)
        [("u", parse_contents FetchOutcome.timeout "u")] ["u", "b"]).fetched :=
  ⟨(process_links_idempotent (fun _ => FetchOutcome.timeout)
      [("u", parse_contents FetchOutcome.timeout "u")] ["u", "b"]).1 "u"
      (parse_contents FetchOutcome.timeout "u") (by decide),
   (process_links_idempotent (fun _ => FetchOutcome.timeout)
      [("u", parse_contents FetchOutcome.timeout "u")] ["u", "b"]).2.1 "u" (by decide)⟩

/-- C4: a url whose fetch fails still has its error-tagged Record merged
into the Bucket and written by the end-of-bucket checkpoint, and a
subsequent run without force-refresh skips it instead of retrying. -/
theorem failed_url_recorded :
    ∀ (fo : String → FetchOutcome) (loaded : Bucket) (links : List String)
      (u : String),
      u ∈ links → List.lookup u loaded = none →
      (parse_contents (fo u) u).error.isSome →
      List.lookup u (process_links_bucket fo loaded links).results =
        some (parse_contents (fo u) u) ∧
      List.lookup u (process_links_bucket fo loaded links).disk =
        some (parse_contents (fo u) u) ∧
      u ∉ (process_links_bucket fo (process_links_bucket fo loaded links).results
          links).fetched := by
  intro fo loaded links u hmem hnone _herr
  have h1 : List.lookup u (process_links_bucket fo loaded links).results =
      some (parse_contents (fo u) u) := by
    show List.lookup u (process_links_loop fo loaded links).results = _
    exact foldl_first_insert fo links (initRun loaded) u hmem hnone
  refine ⟨h1, h1, ?_⟩
  show u ∉ (process_links_loop fo
      (process_links_bucket fo loaded links).results links).fetched
  rw [process_links_loop]
  exact foldl_fetched_skip fo links _ u (parse_contents (fo u) u) h1 (by simp [initRun])

/-- C4 witness: the timed-out url `u` is recorded, checkpointed and not
retried on the second run. -/
theorem failed_url_recorded_witness :
    List.lookup "u"
        (process_links_bucket (fun _ => FetchOutcome.timeout) [] ["u"]).results =
      some (parse_contents FetchOutcome.timeout "u") ∧
    List.lookup "u"
        (process_links_bucket (fun _ => FetchOutcome.timeout) [] ["u"]).disk =
      some (parse_contents FetchOutcome.timeout "u") ∧
    "u" ∉ (process_links_bucket (fun _ => FetchOutcome.timeout)
        (process_links_bucket (fun _ => FetchOutcome.timeout) [] ["u"]).results
        ["u"]).fetched :=
  failed_url_recorded (fun _ => FetchOutcome.timeout) [] ["u"] "u"
    (by decide) rfl (by decide)

/-- C7: the computed column order is the present fixed leading columns in
their defined order followed by all remaining field names of the population
sorted lexicographically; it contains exactly the field names occurring in
the population, every reindexed row carries exactly this column list, and a
column the record lacks renders as an empty cell. -/
theorem dataframe_schema :
    ∀ rs : List Row,
      create_dataframe_cols rs =
        special_columns.filter (fun c => (pandasCols rs).contains c) ++
          sortStrings ((pandasCols rs).filter (fun c => !special_columns.contains c)) ∧
      List.Sorted strLeProp
        (sortStrings ((pandasCols rs).filter (fun c => !special_columns.contains c))) ∧
      (∀ a, a ∈ create_dataframe_cols rs ↔ ∃ r ∈ rs, a ∈ r.map Prod.fst) ∧
      (∀ r : Row, (reindexRow (create_dataframe_cols rs) r).map Prod.fst =
        create_dataframe_cols rs) ∧
      (∀ (r : Row) (c : String), c ∈ create_dataframe_cols rs →
        List.lookup c r = none →
        (c, (none : Option JVal)) ∈ reindexRow (create_dataframe_cols rs) r) := by
  intro rs
  refine ⟨rfl, sorted_sortStrings _, ?_, ?_, ?_⟩
  · intro a
    exact mem_create_dataframe_cols
  · intro r
    rw [reindexRow, List.map_map]
    exact List.map_id _
  · intro r c hc hn
    rw [reindexRow]
    refine List.mem_map.mpr ⟨c, hc, ?_⟩
    rw [hn]

/-- C7 witness: over a two-record population the url record lacks the field
`Договор`, whose cell renders empty while the column is present. -/
theorem dataframe_schema_witness :
    (("Договор", (none : Option JVal)) ∈
      reindexRow
        (create_dataframe_cols
          [[("url", JVal.str "u")], [("Договор", JVal.str "d")]])
        [("url", JVal.str "u")]) ∧
    ((reindexRow
        (create_dataframe_cols
          [[("url", JVal.str "u")], [("Договор", JVal.str "d")]])
        [("url", JVal.str "u")]).map Prod.fst =
      create_dataframe_cols
        [[("url", JVal.str "u")], [("Договор", JVal.str "d")]]) :=
  ⟨(dataframe_schema [[("url", JVal.str "u")], [("Договор", JVal.str "d")]]).2.2.2.2
      [("url", JVal.str "u")] "Договор" (by decide) (by decide),
   (dataframe_schema [[("url", JVal.str "u")], [("Договор", JVal.str "d")]]).2.2.2.1
      [("url", JVal.str "u")]⟩
